import Mathlib

/-!
A verification development for the `rustbus` message core (`src/message.rs`):
the message envelope data model, signature derivation for values, and the
header-field validator, embedded shallowly in Lean.

Rust strings are modelled as `String` (or `List Char` where a string is built
up character by character), `u32`/`i32` as `Nat`/`Int` (no arithmetic is
performed on them), `Vec` as `List`, and fallible functions return
`Except Error`.
-/

namespace Rustbus

/-- Mirrors `enum MessageType` in `src/message.rs`. -/
inductive MessageType
  | Signal
  | Error
  | Call
  | Reply
  deriving DecidableEq, Repr

/-- Mirrors `enum Error` in `src/message.rs`. -/
inductive Error
  | InvalidObjectPath
  | InvalidSignature
  | InvalidHeaderFields
  deriving DecidableEq, Repr

/-- Mirrors `type Result<T> = std::result::Result<T, Error>`. -/
abbrev Result (α : Type) := Except Error α

/-- Mirrors `enum HeaderField` in `src/message.rs`. -/
inductive HeaderField
  | Path (s : String)
  | Interface (s : String)
  | Member (s : String)
  | ErrorName (s : String)
  | ReplySerial (n : Nat)
  | Destination (s : String)
  | Sender (s : String)
  | Signature (s : String)
  | UnixFds (n : Nat)
  deriving DecidableEq, Repr

/-- The kind of a header field: the constructor tag of `HeaderField`,
forgetting the payload. -/
inductive FieldKind
  | Path
  | Interface
  | Member
  | ErrorName
  | ReplySerial
  | Destination
  | Sender
  | Signature
  | UnixFds
  deriving DecidableEq, Repr

/-- The kind tag of a header field. -/
def fieldKind : HeaderField → FieldKind
  | .Path _ => .Path
  | .Interface _ => .Interface
  | .Member _ => .Member
  | .ErrorName _ => .ErrorName
  | .ReplySerial _ => .ReplySerial
  | .Destination _ => .Destination
  | .Sender _ => .Sender
  | .Signature _ => .Signature
  | .UnixFds _ => .UnixFds

/-- The nine mutable `have_*` booleans of `validate_header_fields`, gathered
into a record so the loop can be modelled as a fold. -/
structure Flags where
  have_path : Bool
  have_interface : Bool
  have_member : Bool
  have_errorname : Bool
  have_replyserial : Bool
  have_destination : Bool
  have_sender : Bool
  have_signature : Bool
  have_unixfds : Bool
  deriving DecidableEq, Repr

/-- The initial state of the `have_*` booleans: all `false`. -/
def Flags.init : Flags :=
  ⟨false, false, false, false, false, false, false, false, false⟩

/-- Read the boolean of `Flags` corresponding to a `FieldKind`. -/
def Flags.get (fl : Flags) : FieldKind → Bool
  | .Path => fl.have_path
  | .Interface => fl.have_interface
  | .Member => fl.have_member
  | .ErrorName => fl.have_errorname
  | .ReplySerial => fl.have_replyserial
  | .Destination => fl.have_destination
  | .Sender => fl.have_sender
  | .Signature => fl.have_signature
  | .UnixFds => fl.have_unixfds

/-- Set the boolean of `Flags` corresponding to a `FieldKind` to `true`. -/
def Flags.set (fl : Flags) : FieldKind → Flags
  | .Path => { fl with have_path := true }
  | .Interface => { fl with have_interface := true }
  | .Member => { fl with have_member := true }
  | .ErrorName => { fl with have_errorname := true }
  | .ReplySerial => { fl with have_replyserial := true }
  | .Destination => { fl with have_destination := true }
  | .Sender => { fl with have_sender := true }
  | .Signature => { fl with have_signature := true }
  | .UnixFds => { fl with have_unixfds := true }

/-- The `for h in header_fields` loop of `validate_header_fields`
(src/message.rs lines 177-234): for each field, if its `have_*` flag is
already set return `Err(Error::InvalidHeaderFields)`, otherwise set the flag
and continue. -/
def checkFields : List HeaderField → Flags → Result Flags
  | [], fl => .ok fl
  | h :: rest, fl =>
    match h with
    | .Destination _ =>
      if fl.have_destination then .error .InvalidHeaderFields
      else checkFields rest { fl with have_destination := true }
    | .ErrorName _ =>
      if fl.have_errorname then .error .InvalidHeaderFields
      else checkFields rest { fl with have_errorname := true }
    | .Interface _ =>
      if fl.have_interface then .error .InvalidHeaderFields
      else checkFields rest { fl with have_interface := true }
    | .Member _ =>
      if fl.have_member then .error .InvalidHeaderFields
      else checkFields rest { fl with have_member := true }
    | .Path _ =>
      if fl.have_path then .error .InvalidHeaderFields
      else checkFields rest { fl with have_path := true }
    | .ReplySerial _ =>
      if fl.have_replyserial then .error .InvalidHeaderFields
      else checkFields rest { fl with have_replyserial := true }
    | .Sender _ =>
      if fl.have_sender then .error .InvalidHeaderFields
      else checkFields rest { fl with have_sender := true }
    | .Signature _ =>
      if fl.have_signature then .error .InvalidHeaderFields
      else checkFields rest { fl with have_signature := true }
    | .UnixFds _ =>
      if fl.have_unixfds then .error .InvalidHeaderFields
      else checkFields rest { fl with have_unixfds := true }

/-- Mirrors `validate_header_fields` (src/message.rs lines 163-255): the
single duplicate-detecting pass, then the per-kind required-field check. -/
def validate_header_fields (msg_type : MessageType)
    (header_fields : List HeaderField) : Result Unit :=
  match checkFields header_fields Flags.init with
  | .error e => .error e
  | .ok fl =>
    let valid :=
      match msg_type with
      | .Call => fl.have_path && fl.have_member
      | .Signal => fl.have_path && fl.have_member && fl.have_interface
      | .Reply => fl.have_replyserial
      | .Error => fl.have_errorname && fl.have_replyserial
    if valid then .ok () else .error .InvalidHeaderFields

/-- The required-field table of spec section 4.3, as a list of field kinds
per message kind. -/
def requiredFields : MessageType → List FieldKind
  | .Call => [.Path, .Member]
  | .Signal => [.Path, .Member, .Interface]
  | .Reply => [.ReplySerial]
  | .Error => [.ErrorName, .ReplySerial]

/-! ## Type signature algebra

The repository's `signature` module (`signature::Type`, referenced from
`src/message.rs` via `use crate::signature` and `signature::Type::from_str`)
is not among the available sources, so it is modelled from the spec
(sections 3, 4.1): a recursive signature-type tree with basic kinds, arrays,
non-empty structs, dict entries legal only as an array element, and variant;
a printer emitting the canonical letter/bracket form; and a parser consuming
the whole input, where `{` is legal only directly following `a` and the
empty struct `()` is invalid. The basic-kind letters are the ones
`Base::make_signature` in `src/message.rs` uses. Failures are modelled as
`none` (the spec's error payloads carry only diagnostics). The optional
maximum-signature-length configuration constant is not modelled. -/

/-- Modelled from the spec: the basic (scalar) signature kinds of the missing
`signature` module, restricted to the kinds `src/message.rs` can emit. -/
inductive TBase
  | Boolean
  | Int32
  | Uint32
  | String
  | ObjectPath
  | SignatureKind
  deriving DecidableEq, Repr

/-- The canonical letter of a basic kind, per `Base::make_signature`
in `src/message.rs`. -/
def basicChar : TBase → Char
  | .Boolean => 'c'
  | .Int32 => 'i'
  | .Uint32 => 'u'
  | .String => 's'
  | .ObjectPath => 'o'
  | .SignatureKind => 'g'

/-- The basic kind denoted by a letter, if any. -/
def basicOfChar (ch : Char) : Option TBase :=
  if ch = 'c' then some .Boolean
  else if ch = 'i' then some .Int32
  else if ch = 'u' then some .Uint32
  else if ch = 's' then some .String
  else if ch = 'o' then some .ObjectPath
  else if ch = 'g' then some .SignatureKind
  else none

mutual

/-- Modelled from the spec: the recursive signature-type tree of the missing
`signature` module. `DictEntry` may only appear as an array element, so it is
fused with its enclosing array into `Dict`; a struct's field sequence is
non-empty by construction (`SigFields`). -/
inductive SigType
  | Base : TBase → SigType
  | Arr : SigType → SigType
  | Dict : TBase → SigType → SigType
  | Struct : SigFields → SigType
  | Var : SigType
  deriving DecidableEq, Repr

/-- A non-empty sequence of signature types: the fields of a struct. -/
inductive SigFields
  | one : SigType → SigFields
  | cons : SigType → SigFields → SigFields
  deriving DecidableEq, Repr

end

mutual

/-- Modelled from the spec: printing one signature type in canonical
letter/bracket form, no whitespace. -/
def printType : SigType → List Char
  | .Base b => [basicChar b]
  | .Arr t => 'a' :: printType t
  | .Dict k v => 'a' :: '{' :: basicChar k :: (printType v ++ ['}'])
  | .Struct fs => '(' :: (printFields fs ++ [')'])
  | .Var => ['v']

/-- Printing a struct's field sequence: the concatenation of the fields'
printed forms. -/
def printFields : SigFields → List Char
  | .one t => printType t
  | .cons t fs => printType t ++ printFields fs

end

/-- Modelled from the spec: one step of parsing a single signature type from
the front of the input, returning it with the unconsumed remainder; `pt` and
`pf` are the continuations used for nested types and struct bodies. `{` is
accepted only directly following `a`, and a dict-entry key must be a basic
kind. -/
def parseTypeBody (pt : List Char → Option (SigType × List Char))
    (pf : List Char → Option (SigFields × List Char)) :
    List Char → Option (SigType × List Char)
  | [] => none
  | ch :: rest =>
    match basicOfChar ch with
    | some b => some (.Base b, rest)
    | none =>
      if ch = 'v' then some (.Var, rest)
      else if ch = 'a' then
        match rest with
        | [] => none
        | c2 :: r2 =>
          if c2 = '{' then
            match r2 with
            | [] => none
            | kch :: r3 =>
              match basicOfChar kch with
              | none => none
              | some k =>
                match pt r3 with
                | none => none
                | some (v, r4) =>
                  match r4 with
                  | [] => none
                  | c5 :: r5 => if c5 = '}' then some (.Dict k v, r5) else none
          else
            match pt (c2 :: r2) with
            | none => none
            | some (t, r3) => some (.Arr t, r3)
      else if ch = '(' then
        match pf rest with
        | none => none
        | some (fs, r2) => some (.Struct fs, r2)
      else none

/-- One step of parsing a struct body: one or more types followed by `)`.
An immediate `)` fails (through `pt`), so the empty struct is invalid. -/
def parseFieldsBody (pt : List Char → Option (SigType × List Char))
    (pf : List Char → Option (SigFields × List Char))
    (s : List Char) : Option (SigFields × List Char) :=
  match pt s with
  | none => none
  | some (t, r) =>
    match r with
    | [] => none
    | c :: r2 =>
      if c = ')' then some (.one t, r2)
      else
        match pf (c :: r2) with
        | none => none
        | some (fs, r3) => some (.cons t fs, r3)

/-- The fuel-indexed pair of parsers, tied by recursion on the fuel;
`SigType.from_str` supplies enough fuel for any input. -/
def parseRec : Nat →
    (List Char → Option (SigType × List Char)) ×
    (List Char → Option (SigFields × List Char))
  | 0 => (fun _ => none, fun _ => none)
  | fuel + 1 =>
    (parseTypeBody (parseRec fuel).1 (parseRec fuel).2,
      parseFieldsBody (parseRec fuel).1 (parseRec fuel).2)

/-- Parse one signature type from the front of the input. -/
def parseType (fuel : Nat) : List Char → Option (SigType × List Char) :=
  (parseRec fuel).1

/-- Parse a struct body: one or more types followed by `)`. -/
def parseFields (fuel : Nat) : List Char → Option (SigFields × List Char) :=
  (parseRec fuel).2

/-- Modelled from the spec: parse a whole signature string as a sequence of
top-level types, consuming the entire input. -/
def parseSeq : Nat → List Char → Option (List SigType)
  | 0, _ => none
  | _ + 1, [] => some []
  | fuel + 1, ch :: rest =>
    match parseType fuel (ch :: rest) with
    | none => none
    | some (t, r) =>
      match parseSeq fuel r with
      | none => none
      | some ts => some (t :: ts)

/-- Modelled from the spec: `Type::from_str` of the missing `signature`
module. Empty input fails; otherwise the whole input is parsed as one or
more top-level types. -/
def SigType.from_str (s : String) : Option (List SigType) :=
  match s.data with
  | [] => none
  | ch :: rest => parseSeq (s.data.length + 1) (ch :: rest)

/-- Modelled from the spec: `Type::to_string` on a sequence of top-level
types — the concatenation of the canonical printed forms. -/
def SigType.list_to_string (ts : List SigType) : String :=
  String.mk (ts.flatMap printType)

/-! ## Value model -/

/-- Mirrors `enum Base` in `src/message.rs`. -/
inductive VBase
  | Int32 (n : Int)
  | Uint32 (n : Nat)
  | String (s : String)
  | Signature (s : String)
  | ObjectPath (s : String)
  | Boolean (b : Bool)
  deriving DecidableEq, Repr

mutual

/-- Mirrors `enum Container` in `src/message.rs`. The Rust `Variant` box
(`struct Variant { sig, value }`) is inlined as the two arguments of the
`Variant` constructor. -/
inductive Container
  | Arr : List Param → Container
  | Struct : List Param → Container
  | DictEntry : VBase → Param → Container
  | Variant : SigType → Param → Container

/-- Mirrors `enum Param` in `src/message.rs`. -/
inductive Param
  | Base : VBase → Param
  | Container : Container → Param

end

/-- Mirrors `Base::make_signature`: push the scalar's letter onto the
buffer. -/
def VBase.make_signature (b : VBase) (buf : List Char) : List Char :=
  match b with
  | .Boolean _ => buf ++ ['c']
  | .Int32 _ => buf ++ ['i']
  | .Uint32 _ => buf ++ ['u']
  | .ObjectPath _ => buf ++ ['o']
  | .String _ => buf ++ ['s']
  | .Signature _ => buf ++ ['g']

mutual

/-- Mirrors `Param::make_signature`: dispatch to the base or container
case. The result is `Option` because the container case can panic. -/
def Param.make_signature : Param → List Char → Option (List Char)
  | .Base b, buf => some (b.make_signature buf)
  | .Container c, buf => Container.make_signature c buf

/-- Mirrors `Container::make_signature` (src/message.rs lines 86-109).
The `Array` arm pushes `'a'` and then indexes `elements[0]`, which panics
on an empty vector — modelled as `none`. The `DictEntry` arm pushes `'{'`,
the key's and value's signatures, and then — exactly as the source does —
a second `'{'` rather than `'}'`. -/
def Container.make_signature : Container → List Char → Option (List Char)
  | .Arr elements, buf =>
    match elements with
    | [] => none
    | e :: _ => e.make_signature (buf ++ ['a'])
  | .DictEntry key val, buf =>
    match val.make_signature (key.make_signature (buf ++ ['{'])) with
    | none => none
    | some buf2 => some (buf2 ++ ['{'])
  | .Struct elements, buf => makeSignatureList elements (buf ++ ['('])
  | .Variant _ _, buf => some (buf ++ ['v'])

/-- The `for el in elements` loop of the `Struct` arm of
`Container::make_signature`, followed by the closing `')'`. -/
def makeSignatureList : List Param → List Char → Option (List Char)
  | [], buf => some (buf ++ [')'])
  | e :: rest, buf =>
    match e.make_signature buf with
    | none => none
    | some buf2 => makeSignatureList rest buf2

end

mutual

/-- Every `Array` container in the value tree has at least one element:
the precondition under which `make_signature` is total. -/
def Param.arraysNonempty : Param → Bool
  | .Base _ => true
  | .Container c => c.arraysNonempty

/-- `Container` case of `Param.arraysNonempty`. The inner value of a
`Variant` is included: `make_signature` never looks at it, but the
precondition is about the value tree. -/
def Container.arraysNonempty : Container → Bool
  | .Arr elements => !elements.isEmpty && allArraysNonempty elements
  | .Struct elements => allArraysNonempty elements
  | .DictEntry _ val => val.arraysNonempty
  | .Variant _ val => val.arraysNonempty

/-- All members of a list of params satisfy `arraysNonempty`. -/
def allArraysNonempty : List Param → Bool
  | [] => true
  | e :: rest => e.arraysNonempty && allArraysNonempty rest

end

/-! ## Message envelope and the stubbed validators -/

/-- Mirrors `struct Message` in `src/message.rs`. -/
structure Message where
  typ : MessageType
  interface : Option String
  member : Option String
  object : Option String
  destination : Option String
  params : List Param

/-- Mirrors `Message::new` (src/message.rs lines 51-62): a plain record
constructor, no validation. -/
def Message.new (typ : MessageType) (interface : Option String)
    (member : Option String) (object : Option String)
    (destination : Option String) (params : List Param) : Message :=
  { typ := typ
    interface := interface
    member := member
    params := params
    object := object
    destination := destination }

/-- Mirrors `validate_object_path` (src/message.rs lines 146-149): a `TODO`
stub that accepts every string. -/
def validate_object_path (_op : String) : Result Unit :=
  .ok ()

/-- Mirrors `validate_signature` (src/message.rs lines 150-156): fails with
`InvalidSignature` exactly when `signature::Type::from_str` fails. -/
def validate_signature (sig : String) : Result Unit :=
  if (SigType.from_str sig).isNone then .error .InvalidSignature
  else .ok ()

/-- Mirrors `validate_array` (src/message.rs lines 158-161): a `TODO` stub
("check that all elements have the same type") that accepts every vector. -/
def validate_array (_array : List Param) : Result Unit :=
  .ok ()

/-! ## Lemmas about the header-field validator -/

theorem checkFields_cons (h : HeaderField) (rest : List HeaderField)
    (fl : Flags) :
    checkFields (h :: rest) fl =
      if fl.get (fieldKind h) then .error .InvalidHeaderFields
      else checkFields rest (fl.set (fieldKind h)) := by
  cases h <;> rfl

theorem Flags.get_set (fl : Flags) (k k' : FieldKind) :
    (fl.set k).get k' = if k' = k then true else fl.get k' := by
  cases k <;> cases k' <;> simp [Flags.set, Flags.get]

theorem Flags.get_init (k : FieldKind) : Flags.init.get k = false := by
  cases k <;> rfl

theorem checkFields_ok (fields : List HeaderField) :
    ∀ fl : Flags, (fields.map fieldKind).Nodup →
    (∀ k ∈ fields.map fieldKind, fl.get k = false) →
    ∃ fl', checkFields fields fl = .ok fl' ∧
      ∀ k, (fl'.get k = true ↔ (fl.get k = true ∨ k ∈ fields.map fieldKind)) := by
  induction fields with
  | nil =>
    intro fl _ _
    exact ⟨fl, rfl, by simp⟩
  | cons h rest ih =>
    intro fl hnd hfresh
    have hk : fl.get (fieldKind h) = false := hfresh _ (by simp)
    rw [checkFields_cons, hk]
    simp only [Bool.false_eq_true, if_false]
    simp only [List.map_cons, List.nodup_cons] at hnd
    have hfresh2 : ∀ k ∈ rest.map fieldKind, (fl.set (fieldKind h)).get k = false := by
      intro k hkm
      rw [Flags.get_set]
      have hne : k ≠ fieldKind h := fun he => hnd.1 (he ▸ hkm)
      rw [if_neg hne]
      exact hfresh k (by simp [hkm])
    obtain ⟨fl', hok, hget⟩ := ih (fl.set (fieldKind h)) hnd.2 hfresh2
    refine ⟨fl', hok, fun k => ?_⟩
    rw [hget k, Flags.get_set]
    by_cases hke : k = fieldKind h
    · simp [hke]
    · simp [hke, if_neg hke]

theorem checkFields_err (fields : List HeaderField) :
    ∀ fl : Flags,
    ¬((fields.map fieldKind).Nodup ∧ ∀ k ∈ fields.map fieldKind, fl.get k = false) →
    checkFields fields fl = .error .InvalidHeaderFields := by
  induction fields with
  | nil =>
    intro fl hc
    exact absurd ⟨List.nodup_nil, by simp⟩ hc
  | cons h rest ih =>
    intro fl hc
    rw [checkFields_cons]
    by_cases hk : fl.get (fieldKind h) = true
    · rw [hk]
      rfl
    · replace hk : fl.get (fieldKind h) = false := by
        cases hg : fl.get (fieldKind h)
        · rfl
        · exact absurd hg hk
      rw [hk]
      simp only [Bool.false_eq_true, if_false]
      apply ih
      intro ⟨hnd2, hfresh2⟩
      apply hc
      constructor
      · simp only [List.map_cons, List.nodup_cons]
        refine ⟨fun hmem => ?_, hnd2⟩
        have := hfresh2 _ hmem
        rw [Flags.get_set, if_pos rfl] at this
        simp at this
      · intro k hkm
        simp only [List.map_cons, List.mem_cons] at hkm
        rcases hkm with hke | hkm
        · rw [hke]
          exact hk
        · have := hfresh2 k hkm
          rw [Flags.get_set] at this
          by_cases hke : k = fieldKind h
          · rw [if_pos hke] at this
            simp at this
          · rwa [if_neg hke] at this

theorem checkFields_init (fields : List HeaderField)
    (hnd : (fields.map fieldKind).Nodup) :
    ∃ fl', checkFields fields Flags.init = .ok fl' ∧
      ∀ k, (fl'.get k = true ↔ k ∈ fields.map fieldKind) := by
  obtain ⟨fl', hok, hget⟩ :=
    checkFields_ok fields Flags.init hnd (fun k _ => Flags.get_init k)
  refine ⟨fl', hok, fun k => ?_⟩
  rw [hget k, Flags.get_init]
  simp

theorem ok_iff_of_valid (valid : Bool) :
    ((if valid then (Except.ok () : Result Unit)
      else .error .InvalidHeaderFields) = .ok ()) ↔ valid = true := by
  cases valid <;> simp

set_option maxHeartbeats 1000000 in
theorem validate_ok_iff (mt : MessageType) (fields : List HeaderField)
    (hnd : (fields.map fieldKind).Nodup) :
    (validate_header_fields mt fields = .ok () ↔
      ∀ k ∈ requiredFields mt, k ∈ fields.map fieldKind) := by
  obtain ⟨fl', hok, hget⟩ := checkFields_init fields hnd
  have hp := hget FieldKind.Path
  have hi := hget FieldKind.Interface
  have hm := hget FieldKind.Member
  have he := hget FieldKind.ErrorName
  have hr := hget FieldKind.ReplySerial
  simp only [Flags.get] at hp hi hm he hr
  unfold validate_header_fields
  rw [hok]
  cases mt <;> dsimp only <;> rw [ok_iff_of_valid] <;>
    simp only [requiredFields, Bool.and_eq_true, hp, hi, hm, he, hr,
      List.forall_mem_cons, List.forall_mem_singleton] <;>
    tauto

theorem checkFields_error_form (fields : List HeaderField) :
    ∀ (fl : Flags) (e : Error),
    checkFields fields fl = .error e → e = .InvalidHeaderFields := by
  induction fields with
  | nil =>
    intro fl e h
    exact absurd h (by simp [checkFields])
  | cons h rest ih =>
    intro fl e hcf
    rw [checkFields_cons] at hcf
    by_cases hk : fl.get (fieldKind h) = true
    · rw [if_pos hk] at hcf
      injection hcf with he
      exact he.symm
    · rw [if_neg hk] at hcf
      exact ih _ e hcf

theorem validate_err_form (mt : MessageType) (fields : List HeaderField) :
    validate_header_fields mt fields = .ok () ∨
      validate_header_fields mt fields = .error .InvalidHeaderFields := by
  unfold validate_header_fields
  cases hcf : checkFields fields Flags.init with
  | error e =>
    have he := checkFields_error_form fields Flags.init e hcf
    subst he
    right
    rfl
  | ok fl =>
    dsimp only
    split
    · left
      rfl
    · right
      rfl

theorem validate_dup (mt : MessageType) (fields : List HeaderField)
    (hdup : ¬(fields.map fieldKind).Nodup) :
    validate_header_fields mt fields = .error .InvalidHeaderFields := by
  unfold validate_header_fields
  rw [checkFields_err fields Flags.init (fun hc => hdup hc.1)]

/-! ## Claim theorems: header-field validation -/

/-- C1: for every message kind and every duplicate-free header-field list,
`validate_header_fields` succeeds exactly when the required fields for that
kind are present (Call: Path, Member; Signal: Path, Member, Interface;
Reply: ReplySerial; Error: ErrorName, ReplySerial), and a missing required
field makes it fail with the header-field error (`InvalidHeaderFields`, the
code's single header error, which plays the role of the spec's
missing-required-field error). -/
theorem validate_header_fields_required (mt : MessageType)
    (fields : List HeaderField) (hnd : (fields.map fieldKind).Nodup) :
    (validate_header_fields mt fields = .ok () ↔
      ∀ k ∈ requiredFields mt, k ∈ fields.map fieldKind) ∧
    ((∃ k ∈ requiredFields mt, k ∉ fields.map fieldKind) →
      validate_header_fields mt fields = .error .InvalidHeaderFields) := by
  refine ⟨validate_ok_iff mt fields hnd, fun ⟨k, hk, hnm⟩ => ?_⟩
  rcases validate_err_form mt fields with hok | herr
  · exact absurd ((validate_ok_iff mt fields hnd).mp hok k hk) hnm
  · exact herr

/-- Witness for C1: a Call with only Path `/a` (no Member) fails. -/
theorem validate_header_fields_required_witness :
    ([HeaderField.Path "/a"].map fieldKind).Nodup ∧
    validate_header_fields .Call [HeaderField.Path "/a"] =
      .error .InvalidHeaderFields :=
  ⟨by decide,
    (validate_header_fields_required .Call [HeaderField.Path "/a"]
      (by decide)).2 ⟨FieldKind.Member, by decide, by decide⟩⟩

/-- C2: for every message kind and every header-field list in which some
field kind occurs at least twice, `validate_header_fields` fails with the
header-field error, regardless of whether the required fields are present
(the duplicate is detected during the single pass, before the
required-field table is consulted). -/
theorem validate_header_fields_duplicate (mt : MessageType)
    (fields : List HeaderField) (k : FieldKind)
    (hdup : 2 ≤ (fields.map fieldKind).count k) :
    validate_header_fields mt fields = .error .InvalidHeaderFields := by
  apply validate_dup
  intro hnd
  have := List.nodup_iff_count_le_one.mp hnd k
  omega

/-- Witness for C2: a Reply with ReplySerial 5 appearing twice fails, even
though the required field (ReplySerial) is present. -/
theorem validate_header_fields_duplicate_witness :
    2 ≤ (([HeaderField.ReplySerial 5, HeaderField.ReplySerial 5]).map
      fieldKind).count FieldKind.ReplySerial ∧
    validate_header_fields .Reply
      [HeaderField.ReplySerial 5, HeaderField.ReplySerial 5] =
      .error .InvalidHeaderFields :=
  ⟨by decide,
    validate_header_fields_duplicate .Reply
      [HeaderField.ReplySerial 5, HeaderField.ReplySerial 5]
      FieldKind.ReplySerial (by decide)⟩

/-- C3: no optional field is ever forbidden: a duplicate-free field list
containing the kind's required fields stays valid when any of Sender,
Destination, Signature, UnixFds — or Interface on a Call — is added with a
kind not already present; only the required-field table and the
duplicate-kind rule can cause failure. -/
theorem validate_header_fields_optional (mt : MessageType)
    (fields : List HeaderField) (extra : HeaderField)
    (hnd : (fields.map fieldKind).Nodup)
    (hreq : ∀ k ∈ requiredFields mt, k ∈ fields.map fieldKind)
    (_hopt : fieldKind extra ∈ [FieldKind.Sender, FieldKind.Destination,
        FieldKind.Signature, FieldKind.UnixFds] ∨
      (mt = .Call ∧ fieldKind extra = .Interface))
    (hfresh : fieldKind extra ∉ fields.map fieldKind) :
    validate_header_fields mt (fields ++ [extra]) = .ok () := by
  have hnd2 : ((fields ++ [extra]).map fieldKind).Nodup := by
    rw [List.map_append, List.nodup_append]
    refine ⟨hnd, List.nodup_singleton _, fun a ha hb => ?_⟩
    simp only [List.map_cons, List.map_nil, List.mem_singleton] at hb
    exact hfresh (hb ▸ ha)
  rw [validate_ok_iff mt _ hnd2]
  intro k hk
  rw [List.map_append, List.mem_append]
  exact Or.inl (hreq k hk)

/-- Witness for C3: a valid Call (Path, Member) stays valid after adding a
Sender. -/
theorem validate_header_fields_optional_witness :
    ([HeaderField.Path "/a", HeaderField.Member "Foo"].map fieldKind).Nodup ∧
    validate_header_fields .Call
      ([HeaderField.Path "/a", HeaderField.Member "Foo"] ++
        [HeaderField.Sender "org.x"]) = .ok () :=
  ⟨by decide,
    validate_header_fields_optional .Call
      [HeaderField.Path "/a", HeaderField.Member "Foo"]
      (HeaderField.Sender "org.x") (by decide) (by decide)
      (Or.inl (by decide)) (by decide)⟩

/-! ## Lemmas about signature derivation on values -/

mutual

theorem make_signature_total_param : ∀ (p : Param) (buf : List Char),
    p.arraysNonempty = true → (p.make_signature buf).isSome = true
  | .Base b, buf, _ => by simp [Param.make_signature]
  | .Container c, buf, h =>
    make_signature_total_container c buf (by simpa [Param.arraysNonempty] using h)

theorem make_signature_total_container : ∀ (c : Container) (buf : List Char),
    c.arraysNonempty = true → (c.make_signature buf).isSome = true
  | .Arr elements, buf, h => by
    cases elements with
    | nil => simp [Container.arraysNonempty, List.isEmpty] at h
    | cons e rest =>
      have he : e.arraysNonempty = true := by
        simp [Container.arraysNonempty, allArraysNonempty, Bool.and_eq_true] at h
        exact h.1
      simpa [Container.make_signature] using
        make_signature_total_param e (buf ++ ['a']) he
  | .DictEntry key val, buf, h => by
    have hv : val.arraysNonempty = true := by
      simpa [Container.arraysNonempty] using h
    have := make_signature_total_param val (key.make_signature (buf ++ ['{'])) hv
    cases hmk : val.make_signature (key.make_signature (buf ++ ['{'])) with
    | none => rw [hmk] at this; simp at this
    | some buf2 => simp [Container.make_signature, hmk]
  | .Struct elements, buf, h =>
    makeSignatureList_total elements (buf ++ ['('])
      (by simpa [Container.arraysNonempty] using h)
  | .Variant sig value, buf, _ => by simp [Container.make_signature]

theorem makeSignatureList_total : ∀ (l : List Param) (buf : List Char),
    allArraysNonempty l = true → (makeSignatureList l buf).isSome = true
  | [], buf, _ => by simp [makeSignatureList]
  | e :: rest, buf, h => by
    have h12 : e.arraysNonempty = true ∧ allArraysNonempty rest = true := by
      simpa [allArraysNonempty, Bool.and_eq_true] using h
    have := make_signature_total_param e buf h12.1
    cases hmk : e.make_signature buf with
    | none => rw [hmk] at this; simp at this
    | some buf2 =>
      simpa [makeSignatureList, hmk] using
        makeSignatureList_total rest buf2 h12.2

end

/-! ## Claim theorems: value model and message constructor -/

/-- C4 (code bug): `Container::make_signature` on a DictEntry appends `'{'`,
the key's signature, the value's signature, and then — instead of the
closing delimiter `'}'` required by the signature grammar — a second `'{'`:
the dict entry `DictEntry(Int32(0), Int32(0))` derives `"{ii{"` rather than
`"{ii}"`. -/
theorem dict_entry_signature_bug :
    Container.make_signature
      (.DictEntry (VBase.Int32 0) (Param.Base (VBase.Int32 0))) [] =
      some ['{', 'i', 'i', '{'] := rfl

/-- C5 (code bug): `validate_array` is a TODO stub that accepts every
vector, so the heterogeneous array `[Int32(1), Int32(2), String("x")]` is
not rejected with a heterogeneous-array error; `make_signature` silently
derives `"ai"` for it from element 0, the same signature the homogeneous
`[Int32(1), Int32(2)]` correctly receives. -/
theorem heterogeneous_array_not_rejected :
    validate_array [Param.Base (VBase.Int32 1), Param.Base (VBase.Int32 2),
      Param.Base (VBase.String "x")] = .ok () ∧
    Container.make_signature (.Arr [Param.Base (VBase.Int32 1),
      Param.Base (VBase.Int32 2), Param.Base (VBase.String "x")]) [] =
      some ['a', 'i'] ∧
    Container.make_signature
      (.Arr [Param.Base (VBase.Int32 1), Param.Base (VBase.Int32 2)]) [] =
      some ['a', 'i'] :=
  ⟨rfl, rfl, rfl⟩

/-- C7 counterexample: `Message::new` constructs and returns a `Message`
for a combination violating the section 4.3 rules — a Call carrying no
Member (and no header information at all), whose empty header-field list
the validator itself rejects. The constructor rejects nothing. -/
theorem message_new_no_validation_counterexample :
    (Message.new .Call none none none none []).typ = .Call ∧
    (Message.new .Call none none none none []).member = none ∧
    validate_header_fields .Call [] = .error .InvalidHeaderFields :=
  ⟨rfl, rfl, rfl⟩

/-- C7 (amended): `Message::new` performs no validation at all: for every
argument combination it constructs the record whose fields are exactly the
given arguments; section 4.3 checking lives only in the separate
`validate_header_fields`. -/
theorem message_new_amended (typ : MessageType)
    (interface member object destination : Option String)
    (params : List Param) :
    Message.new typ interface member object destination params =
      { typ := typ, interface := interface, member := member,
        object := object, destination := destination, params := params } := rfl

/-- C8 (code bug): `validate_object_path` is a TODO stub that accepts every
string: grammar-violating paths — a trailing slash on a non-root path, an
empty segment — are accepted rather than rejected with
`InvalidObjectPath`. -/
theorem object_path_not_validated :
    validate_object_path "/a/" = .ok () ∧
    validate_object_path "//" = .ok () ∧
    validate_object_path "no-leading-slash" = .ok () :=
  ⟨rfl, rfl, rfl⟩

/-- C9: a Variant value contributes exactly the single letter `'v'` to the
outer signature, regardless of its declared inner signature and inner
value. -/
theorem variant_signature (sig : SigType) (value : Param) (buf : List Char) :
    Container.make_signature (.Variant sig value) buf = some (buf ++ ['v']) :=
  rfl

/-- C10: signature derivation is not total on arrays: an empty Array makes
`Container::make_signature` undefined (the `elements[0]` index panics,
modelled as `none`), and under the precondition that every Array in the
value tree is non-empty it is total. -/
theorem make_signature_empty_array_totality :
    (∀ buf, Container.make_signature (.Arr []) buf = none) ∧
    (∀ (p : Param) (buf : List Char), p.arraysNonempty = true →
      (p.make_signature buf).isSome = true) :=
  ⟨fun _ => rfl, make_signature_total_param⟩

/-- Witness for C10: the non-empty-arrays precondition holds of the
one-element array `[Int32(1)]`, and there `make_signature` is defined. -/
theorem make_signature_empty_array_totality_witness :
    (Param.Container (Container.Arr [Param.Base (VBase.Int32 1)])).arraysNonempty
      = true ∧
    ((Param.Container (Container.Arr [Param.Base (VBase.Int32 1)])).make_signature
      []).isSome = true :=
  ⟨rfl, make_signature_empty_array_totality.2 _ [] rfl⟩

theorem parseType_succ (fuel : Nat) :
    parseType (fuel + 1) =
      parseTypeBody (parseType fuel) (parseFields fuel) := rfl

theorem parseFields_succ (fuel : Nat) :
    parseFields (fuel + 1) =
      parseFieldsBody (parseType fuel) (parseFields fuel) := rfl

theorem basicOfChar_basicChar : ∀ b : TBase, basicOfChar (basicChar b) = some b := by
  intro b
  cases b <;> rfl

theorem basicChar_of_basicOfChar {ch : Char} {b : TBase}
    (h : basicOfChar ch = some b) : ch = basicChar b := by
  unfold basicOfChar at h
  split_ifs at h with h1 h2 h3 h4 h5 h6 <;>
    first
      | exact Option.noConfusion h
      | (injection h with hb; subst hb; simp [basicChar, *])

theorem printType_head : ∀ t : SigType,
    ∃ c cs, printType t = c :: cs ∧ c ≠ '{' ∧ c ≠ ')' := by
  intro t
  cases t with
  | Base b => exact ⟨basicChar b, [], rfl, by cases b <;> decide, by cases b <;> decide⟩
  | Arr t => exact ⟨'a', printType t, rfl, by decide, by decide⟩
  | Dict k v => exact ⟨'a', '{' :: basicChar k :: (printType v ++ ['}']), rfl, by decide, by decide⟩
  | Struct fs => exact ⟨'(', printFields fs ++ [')'], rfl, by decide, by decide⟩
  | Var => exact ⟨'v', [], rfl, by decide, by decide⟩

theorem printFields_head : ∀ fs : SigFields,
    ∃ c cs, printFields fs = c :: cs ∧ c ≠ '{' ∧ c ≠ ')' := by
  intro fs
  cases fs with
  | one t =>
    obtain ⟨c, cs, hp, h1, h2⟩ := printType_head t
    exact ⟨c, cs, hp, h1, h2⟩
  | cons t fs =>
    obtain ⟨c, cs, hp, h1, h2⟩ := printType_head t
    exact ⟨c, cs ++ printFields fs, by simp [printFields, hp], h1, h2⟩

theorem printType_length_pos (t : SigType) : 1 ≤ (printType t).length := by
  obtain ⟨c, cs, hp, _, _⟩ := printType_head t
  simp [hp]

theorem parseTypeBody_base {ch : Char} {b : TBase}
    (pt : List Char → Option (SigType × List Char))
    (pf : List Char → Option (SigFields × List Char))
    (s : List Char) (h : basicOfChar ch = some b) :
    parseTypeBody pt pf (ch :: s) = some (.Base b, s) := by
  unfold parseTypeBody
  dsimp only
  rw [h]

theorem parseTypeBody_v
    (pt : List Char → Option (SigType × List Char))
    (pf : List Char → Option (SigFields × List Char))
    (s : List Char) :
    parseTypeBody pt pf ('v' :: s) = some (.Var, s) := rfl

theorem parseTypeBody_dict
    (pt : List Char → Option (SigType × List Char))
    (pf : List Char → Option (SigFields × List Char))
    (kch : Char) (r3 : List Char) :
    parseTypeBody pt pf ('a' :: '{' :: kch :: r3) =
      match basicOfChar kch with
      | none => none
      | some k =>
        match pt r3 with
        | none => none
        | some (v, r4) =>
          match r4 with
          | [] => none
          | c5 :: r5 => if c5 = '}' then some (.Dict k v, r5) else none := rfl

theorem parseTypeBody_arr
    (pt : List Char → Option (SigType × List Char))
    (pf : List Char → Option (SigFields × List Char))
    (c : Char) (cs : List Char) (hc : c ≠ '{') :
    parseTypeBody pt pf ('a' :: c :: cs) =
      match pt (c :: cs) with
      | none => none
      | some (t, r3) => some (.Arr t, r3) := by
  unfold parseTypeBody
  try dsimp only
  rw [show basicOfChar 'a' = none from rfl]
  try dsimp only
  rw [if_neg (show ¬(('a' : Char) = 'v') from by decide),
    if_pos (show ('a' : Char) = 'a' from rfl)]
  try dsimp only
  rw [if_neg hc]

theorem parseTypeBody_paren
    (pt : List Char → Option (SigType × List Char))
    (pf : List Char → Option (SigFields × List Char))
    (s : List Char) :
    parseTypeBody pt pf ('(' :: s) =
      match pf s with
      | none => none
      | some (fs, r2) => some (.Struct fs, r2) := rfl

mutual

theorem parseType_print : ∀ (t : SigType) (fuel : Nat) (rest : List Char),
    (printType t).length ≤ fuel →
    parseType fuel (printType t ++ rest) = some (t, rest)
  | .Base b, fuel, rest, h => by
    simp only [printType, List.length_singleton] at h
    obtain ⟨n, rfl⟩ : ∃ n, fuel = n + 1 := ⟨fuel - 1, by omega⟩
    rw [parseType_succ]
    exact parseTypeBody_base _ _ _ (basicOfChar_basicChar b)
  | .Var, fuel, rest, h => by
    simp only [printType, List.length_singleton] at h
    obtain ⟨n, rfl⟩ : ∃ n, fuel = n + 1 := ⟨fuel - 1, by omega⟩
    rw [parseType_succ]
    exact parseTypeBody_v _ _ _
  | .Arr t, fuel, rest, h => by
    simp only [printType, List.length_cons] at h
    obtain ⟨n, rfl⟩ : ∃ n, fuel = n + 1 := ⟨fuel - 1, by omega⟩
    rw [parseType_succ]
    obtain ⟨c, cs, hpr, hc1, _⟩ := printType_head t
    have hin : printType (SigType.Arr t) ++ rest = 'a' :: c :: (cs ++ rest) := by
      simp [printType, hpr]
    rw [hin, parseTypeBody_arr _ _ c (cs ++ rest) hc1]
    have hback : c :: (cs ++ rest) = printType t ++ rest := by simp [hpr]
    rw [hback, parseType_print t n rest (by omega)]
  | .Dict k v, fuel, rest, h => by
    simp only [printType, List.length_cons, List.length_append,
      List.length_singleton, List.length_nil] at h
    obtain ⟨n, rfl⟩ : ∃ n, fuel = n + 1 := ⟨fuel - 1, by omega⟩
    rw [parseType_succ]
    have hin : printType (SigType.Dict k v) ++ rest =
        'a' :: '{' :: basicChar k :: (printType v ++ ('}' :: rest)) := by
      simp [printType, List.append_assoc]
    rw [hin, parseTypeBody_dict, basicOfChar_basicChar k,
      parseType_print v n ('}' :: rest) (by omega)]
    rfl
  | .Struct fs, fuel, rest, h => by
    simp only [printType, List.length_cons, List.length_append,
      List.length_singleton, List.length_nil] at h
    obtain ⟨n, rfl⟩ : ∃ n, fuel = n + 1 := ⟨fuel - 1, by omega⟩
    rw [parseType_succ]
    have hin : printType (SigType.Struct fs) ++ rest =
        '(' :: (printFields fs ++ (')' :: rest)) := by
      simp [printType, List.append_assoc]
    rw [hin, parseTypeBody_paren, parseFields_print fs n rest (by omega)]

theorem parseFields_print : ∀ (fs : SigFields) (fuel : Nat) (rest : List Char),
    (printFields fs).length + 1 ≤ fuel →
    parseFields fuel (printFields fs ++ ')' :: rest) = some (fs, rest)
  | .one t, fuel, rest, h => by
    simp only [printFields] at h ⊢
    obtain ⟨n, rfl⟩ : ∃ n, fuel = n + 1 := ⟨fuel - 1, by omega⟩
    rw [parseFields_succ]
    unfold parseFieldsBody
    rw [parseType_print t n (')' :: rest) (by omega)]
    rfl
  | .cons t fs, fuel, rest, h => by
    simp only [printFields, List.length_append] at h ⊢
    obtain ⟨n, rfl⟩ : ∃ n, fuel = n + 1 := ⟨fuel - 1, by omega⟩
    rw [parseFields_succ]
    have hlt := printType_length_pos t
    unfold parseFieldsBody
    rw [List.append_assoc,
      parseType_print t n (printFields fs ++ ')' :: rest) (by omega)]
    obtain ⟨c, cs, hpr, _, hc2⟩ := printFields_head fs
    have hback : printFields fs ++ ')' :: rest = c :: (cs ++ ')' :: rest) := by
      simp [hpr]
    rw [hback]
    dsimp only
    rw [if_neg hc2, ← hback, parseFields_print fs n rest (by omega)]

end

theorem parse_sound : ∀ fuel : Nat,
    (∀ s t r, parseType fuel s = some (t, r) → s = printType t ++ r) ∧
    (∀ s fs r, parseFields fuel s = some (fs, r) → s = printFields fs ++ ')' :: r) := by
  intro fuel
  induction fuel with
  | zero =>
    constructor
    · intro s t r h
      exact absurd h (by simp [parseType, parseRec])
    · intro s fs r h
      exact absurd h (by simp [parseFields, parseRec])
  | succ n ih =>
    constructor
    · intro s t r h
      rw [parseType_succ] at h
      cases s with
      | nil => exact absurd h (by simp [parseTypeBody])
      | cons ch rest =>
        unfold parseTypeBody at h
        dsimp only at h
        cases hb : basicOfChar ch with
        | some b =>
          try simp only [hb] at h
          try dsimp only at h
          injection h with hpair
          injection hpair with ht hr
          subst ht
          subst hr
          rw [basicChar_of_basicOfChar hb]
          rfl
        | none =>
          try simp only [hb] at h
          try dsimp only at h
          by_cases hv : ch = 'v'
          · rw [if_pos hv] at h
            injection h with hpair
            injection hpair with ht hr
            subst ht
            subst hr
            subst hv
            rfl
          · rw [if_neg hv] at h
            by_cases ha : ch = 'a'
            · rw [if_pos ha] at h
              subst ha
              cases rest with
              | nil => simp at h
              | cons c2 r2 =>
                try dsimp only at h
                by_cases hbr : c2 = '{'
                · rw [if_pos hbr] at h
                  subst hbr
                  cases r2 with
                  | nil => simp at h
                  | cons kch r3 =>
                    try dsimp only at h
                    cases hk : basicOfChar kch with
                    | none =>
                      try simp only [hk] at h
                      exact Option.noConfusion h
                    | some k =>
                      try simp only [hk] at h
                      try dsimp only at h
                      cases hp : parseType n r3 with
                      | none =>
                        try simp only [hp] at h
                        exact Option.noConfusion h
                      | some pr =>
                        obtain ⟨v, r4⟩ := pr
                        try simp only [hp] at h
                        try dsimp only at h
                        cases r4 with
                        | nil => simp at h
                        | cons c5 r5 =>
                          try dsimp only at h
                          by_cases hc5 : c5 = '}'
                          · rw [if_pos hc5] at h
                            subst hc5
                            injection h with hpair
                            injection hpair with ht hr
                            subst ht
                            subst hr
                            have hr3 := ih.1 r3 v ('}' :: r5) hp
                            rw [basicChar_of_basicOfChar hk, hr3]
                            simp [printType, List.append_assoc]
                          · rw [if_neg hc5] at h
                            exact Option.noConfusion h
                · rw [if_neg hbr] at h
                  cases hp : parseType n (c2 :: r2) with
                  | none =>
                    try simp only [hp] at h
                    exact Option.noConfusion h
                  | some pr =>
                    obtain ⟨t0, r3⟩ := pr
                    try simp only [hp] at h
                    try dsimp only at h
                    injection h with hpair
                    injection hpair with ht hr
                    subst ht
                    subst hr
                    have hrest := ih.1 (c2 :: r2) t0 r3 hp
                    rw [hrest]
                    rfl
            · rw [if_neg ha] at h
              by_cases hpn : ch = '('
              · rw [if_pos hpn] at h
                subst hpn
                cases hf : parseFields n rest with
                | none =>
                  try simp only [hf] at h
                  exact Option.noConfusion h
                | some pr =>
                  obtain ⟨fs0, r2⟩ := pr
                  try simp only [hf] at h
                  try dsimp only at h
                  injection h with hpair
                  injection hpair with ht hr
                  subst ht
                  subst hr
                  have hrest := ih.2 rest fs0 r2 hf
                  rw [hrest]
                  simp [printType, List.append_assoc]
              · rw [if_neg hpn] at h
                exact Option.noConfusion h
    · intro s fs r h
      rw [parseFields_succ] at h
      unfold parseFieldsBody at h
      cases hp : parseType n s with
      | none =>
        try simp only [hp] at h
        exact Option.noConfusion h
      | some pr =>
        obtain ⟨t, r0⟩ := pr
        try simp only [hp] at h
        try dsimp only at h
        have hs := ih.1 s t r0 hp
        cases r0 with
        | nil => simp at h
        | cons c r2 =>
          try dsimp only at h
          by_cases hc : c = ')'
          · rw [if_pos hc] at h
            subst hc
            injection h with hpair
            injection hpair with hf hr
            subst hf
            subst hr
            rw [hs]
            rfl
          · rw [if_neg hc] at h
            cases hf : parseFields n (c :: r2) with
            | none =>
              try simp only [hf] at h
              exact Option.noConfusion h
            | some pr2 =>
              obtain ⟨fs0, r3⟩ := pr2
              try simp only [hf] at h
              try dsimp only at h
              injection h with hpair
              injection hpair with hfs hr
              subst hfs
              subst hr
              have hr0 := ih.2 (c :: r2) fs0 r3 hf
              rw [hs, hr0]
              simp [printFields, List.append_assoc]

theorem parseSeq_sound : ∀ (fuel : Nat) (s : List Char) (ts : List SigType),
    parseSeq fuel s = some ts → s = ts.flatMap printType := by
  intro fuel
  induction fuel with
  | zero =>
    intro s ts h
    exact absurd h (by simp [parseSeq])
  | succ n ih =>
    intro s ts h
    cases s with
    | nil =>
      have h' : (some [] : Option (List SigType)) = some ts := h
      injection h' with he
      subst he
      rfl
    | cons ch rest =>
      unfold parseSeq at h
      cases hp : parseType n (ch :: rest) with
      | none =>
        try simp only [hp] at h
        exact Option.noConfusion h
      | some pr =>
        obtain ⟨t, r⟩ := pr
        try simp only [hp] at h
        try dsimp only at h
        cases hq : parseSeq n r with
        | none =>
          try simp only [hq] at h
          exact Option.noConfusion h
        | some ts2 =>
          try simp only [hq] at h
          try dsimp only at h
          injection h with he
          subst he
          have h1 := (parse_sound n).1 (ch :: rest) t r hp
          have h2 := ih r ts2 hq
          have hflat : (t :: ts2).flatMap printType =
              printType t ++ ts2.flatMap printType := by simp
          rw [hflat, ← h2, h1]

theorem parseSeq_print : ∀ (ts : List SigType) (fuel : Nat),
    (ts.flatMap printType).length + 1 ≤ fuel →
    parseSeq fuel (ts.flatMap printType) = some ts := by
  intro ts
  induction ts with
  | nil =>
    intro fuel h
    obtain ⟨n, rfl⟩ : ∃ n, fuel = n + 1 := ⟨fuel - 1, by omega⟩
    rfl
  | cons t ts ih =>
    intro fuel h
    have hflat : (t :: ts).flatMap printType =
        printType t ++ ts.flatMap printType := by simp
    rw [hflat] at h ⊢
    simp only [List.length_append] at h
    have hlt := printType_length_pos t
    obtain ⟨n, rfl⟩ : ∃ n, fuel = n + 1 := ⟨fuel - 1, by omega⟩
    obtain ⟨c, cs, hpr, _, _⟩ := printType_head t
    have hcons : printType t ++ ts.flatMap printType =
        c :: (cs ++ ts.flatMap printType) := by simp [hpr]
    rw [hcons]
    unfold parseSeq
    rw [← hcons, parseType_print t n (ts.flatMap printType) (by omega)]
    try dsimp only
    rw [ih n (by omega)]

theorem from_str_to_string (s : String) (ts : List SigType)
    (h : SigType.from_str s = some ts) : SigType.list_to_string ts = s := by
  obtain ⟨data⟩ := s
  unfold SigType.from_str at h
  try dsimp only at h
  cases data with
  | nil => exact Option.noConfusion h
  | cons ch rest =>
    try dsimp only at h
    have hs := parseSeq_sound _ _ _ h
    unfold SigType.list_to_string
    rw [← hs]

theorem to_string_from_str (ts : List SigType) (h : ts ≠ []) :
    SigType.from_str (SigType.list_to_string ts) = some ts := by
  cases ts with
  | nil => exact absurd rfl h
  | cons t ts2 =>
    unfold SigType.list_to_string SigType.from_str
    obtain ⟨c, cs, hpr, _, _⟩ := printType_head t
    have hflat : (t :: ts2).flatMap printType =
        c :: (cs ++ ts2.flatMap printType) := by simp [hpr]
    try dsimp only
    rw [hflat]
    try dsimp only
    rw [← hflat]
    exact parseSeq_print (t :: ts2) _ (le_refl _)

/-- C6: signature parsing and printing are exact inverses: parsing any
string to a type sequence and printing it returns the same string, and
printing any non-empty type sequence (in particular any single type) and
parsing it back returns the same sequence. Stated for the spec-modelled
`signature` module (`SigType.from_str` / `SigType.list_to_string`). -/
theorem signature_roundtrip :
    (∀ (s : String) (ts : List SigType),
      SigType.from_str s = some ts → SigType.list_to_string ts = s) ∧
    (∀ ts : List SigType, ts ≠ [] →
      SigType.from_str (SigType.list_to_string ts) = some ts) :=
  ⟨from_str_to_string, to_string_from_str⟩

/-- Witness for C6: the dictionary signature `a{sv}` parses and
round-trips both ways. -/
theorem signature_roundtrip_witness :
    SigType.from_str "a{sv}" = some [SigType.Dict TBase.String SigType.Var] ∧
    SigType.list_to_string [SigType.Dict TBase.String SigType.Var] = "a{sv}" ∧
    SigType.from_str
      (SigType.list_to_string [SigType.Dict TBase.String SigType.Var]) =
      some [SigType.Dict TBase.String SigType.Var] := by
  have h1 : SigType.from_str "a{sv}" =
      some [SigType.Dict TBase.String SigType.Var] := rfl
  exact ⟨h1, signature_roundtrip.1 _ _ h1, signature_roundtrip.2 _ (by simp)⟩

end Rustbus
